import Mathlib

/-!
Verification development for the IA-Iso-Spider crawler
(`IA-Iso-Spider.py`).  The crawler's frontier management, deduplication,
yield statistics, paging arithmetic, crawl loop and heartbeat reporter are
shallowly embedded below; Python floats are modelled as rationals and the
network is an explicit oracle (`Net`).  All definitions follow the source
line by line; theorems settle the specification's claims about them.
-/

namespace IsoSpider

/-- Node kinds carried by frontier items (the `kind` string in the source:
either the string "collection" or the string "identifier"). -/
inductive NodeKind where
  | collection
  | identifier
deriving DecidableEq, Repr

/-- `FrontierItem` dataclass: priority score, node kind, node id, crawl
depth and the stats key used for reprioritization. -/
structure FrontierItem where
  priority : ℚ
  kind : NodeKind
  value : String
  depth : Nat
  stats_key : String
deriving DecidableEq, Repr

/-- Descending comparison on priorities: `frontLE a b` holds when `a` may
come before `b` in the frontier, i.e. `a.priority ≥ b.priority`.  This is
the Boolean order realizing `sort(key=lambda x: x.priority, reverse=True)`. -/
def frontLE (a b : FrontierItem) : Bool := decide (b.priority ≤ a.priority)

/-- Stable descending sort of the frontier; Python's `list.sort` is a
stable sort, modelled by `List.mergeSort`. -/
def sortFrontier (l : List FrontierItem) : List FrontierItem :=
  l.mergeSort frontLE

/-- `push_frontier`: append the item, then re-sort by descending priority
(stable). -/
def push_frontier (frontier : List FrontierItem) (item : FrontierItem) :
    List FrontierItem :=
  sortFrontier (frontier ++ [item])

/-- `pop_frontier`: return `none` on the empty frontier, else the head
element together with the remaining queue (the source pops index 0 in
place; we return the updated list explicitly). -/
def pop_frontier (frontier : List FrontierItem) :
    Option (FrontierItem × List FrontierItem) :=
  match frontier with
  | [] => none
  | x :: xs => some (x, xs)

/-- Per-collection yield counters (`coll_stats` entries):
items seen and isos found. -/
structure CollStat where
  items : Nat
  isos : Nat
deriving DecidableEq, Repr

/-- The `coll_stats` mapping, as an association list keyed by collection id. -/
abbrev StatsMap := List (String × CollStat)

/-- `coll_stats.get(key)`: lookup without creating an entry. -/
def statsGet (m : StatsMap) (key : String) : Option CollStat :=
  match m with
  | [] => none
  | (k, v) :: rest => if k = key then some v else statsGet rest key

/-- Update (or create with the defaultdict zero entry) the counters of one
collection, applying `f` to the current entry. -/
def statsUpdate (m : StatsMap) (key : String) (f : CollStat → CollStat) :
    StatsMap :=
  match m with
  | [] => [(key, f ⟨0, 0⟩)]
  | (k, v) :: rest =>
    if k = key then (k, f v) :: rest else (k, v) :: statsUpdate rest key f

/-- `coll_stats[coll]["items"] += 1` (defaultdict semantics). -/
def incItems (m : StatsMap) (key : String) : StatsMap :=
  statsUpdate m key (fun st => ⟨st.items + 1, st.isos⟩)

/-- `coll_stats[coll]["isos"] += n` (defaultdict semantics). -/
def addIsos (m : StatsMap) (key : String) (n : Nat) : StatsMap :=
  statsUpdate m key (fun st => ⟨st.items, st.isos + n⟩)

/-- The yield-ratio scoring used whenever a collection is (re)weighed
(source lines 449-453, 472-477 and 525-529):
`isos / max(1, items)` when a stats entry exists with `items > 0`,
else the neutral baseline 0.5. -/
def ratio (m : StatsMap) (key : String) : ℚ :=
  match statsGet m key with
  | some st => if 0 < st.items then (st.isos : ℚ) / ((max 1 st.items : Nat) : ℚ) else 1/2
  | none => 1/2

/-- One pass of the frontier re-weighing loop (source lines 469-477) over a
single queued element: collection nodes with observed items get priority
`1.0 + isos/max(1, items)`; other collection nodes decay by factor 0.95
with floor 0.1; identifier nodes are untouched. -/
def reprioritizeOne (m : StatsMap) (fi : FrontierItem) : FrontierItem :=
  if fi.kind = NodeKind.collection then
    match statsGet m fi.stats_key with
    | some st =>
      if 0 < st.items then
        { fi with priority := 1 + (st.isos : ℚ) / ((max 1 st.items : Nat) : ℚ) }
      else
        { fi with priority := max (fi.priority * (19/20)) (1/10) }
    | none => { fi with priority := max (fi.priority * (19/20)) (1/10) }
  else fi

/-- The whole re-weigh pass followed by the re-sort (source lines 469-478). -/
def reprioritizeAll (m : StatsMap) (frontier : List FrontierItem) :
    List FrontierItem :=
  sortFrontier (frontier.map (reprioritizeOne m))

/-- One search-result document (`doc.get("identifier")`, `doc.get("title")`;
a missing field is the empty string). -/
structure Doc where
  identifier : String
  title : String
deriving DecidableEq, Repr

/-- One entry of a metadata record's `files` list. -/
structure MetaFile where
  name : String
  size : Option String
deriving DecidableEq, Repr

/-- The `metadata` block of a record: title, mediatype and the
`collection` field (absent = `[]`, a single string = singleton list). -/
structure MetaBlock where
  title : String
  mediatype : String
  collection : List String
deriving DecidableEq, Repr

/-- A metadata record: the `files` list plus the `metadata` block. -/
structure Meta where
  files : List MetaFile
  metadata : MetaBlock
deriving DecidableEq, Repr

/-- One page of advanced-search results: `response.numFound` and
`response.docs`. -/
structure SearchPage where
  numFound : Nat
  docs : List Doc
deriving DecidableEq, Repr

/-- The network oracle: `search c rows p` models
`adv_search_collection(session, c, rows, p)` (`none` = the call raised) and
`meta id` models `fetch_metadata(session, id)` (`none` = non-200 or parse
failure). -/
structure Net where
  search : String → Nat → Nat → Option SearchPage
  meta : String → Option Meta

/-- The download-URL template `DOWNLOAD_BASE/{identifier}/{name}`. -/
def download_url (identifier name : String) : String :=
  "https://archive.org/download" ++ "/" ++ identifier ++ "/" ++ name

/-- A discovered ISO record as written to the output JSONL stream. -/
structure DiscoveredFile where
  identifier : String
  title : String
  file_name : String
  downloadUrl : String
  size : String
deriving DecidableEq, Repr

/-- `extract_iso_entries`: keep files whose stripped name is non-empty and
whose lowercased name ends in `.iso` or `.img`, in list order. -/
def extract_iso_entries (identifier title : String) (meta : Meta) :
    List DiscoveredFile :=
  meta.files.filterMap (fun f =>
    let name := f.name.trim
    if name = "" then none
    else
      let lname := name.toLower
      if lname.endsWith ".iso" || lname.endsWith ".img" then
        some { identifier := identifier, title := title, file_name := name,
               downloadUrl := download_url identifier name,
               size := f.size.getD "unknown" }
      else none)

/-- `related_collections_from_meta`: the set of non-empty strings in the
record's `metadata.collection` field.  Python builds a `set`; we
determinize its iteration order to first occurrence. -/
def related_collections_from_meta (meta : Meta) : List String :=
  (meta.metadata.collection.filter (fun c => c ≠ "")).eraseDups

/-- `classify_seed`: `collection` when metadata is unavailable or the
mediatype says so, else `identifier`. -/
def classify_seed (net : Net) (seed : String) : NodeKind :=
  match net.meta seed with
  | none => NodeKind.collection
  | some m =>
    if m.metadata.mediatype.toLower = "collection" then NodeKind.collection
    else NodeKind.identifier

/-- Instrumentation events recorded by the embedded crawl: the start of a
collection visit, the start of an item visit (both recorded at the moment
the id is added to its seen set), and one search-page fetch
(`some n` = success with `n` docs, `none` = the fetch raised). -/
inductive Event where
  | visitCol (c : String)
  | visitId (i : String)
  | fetchPage (c : String) (p : Nat) (result : Option Nat)
deriving DecidableEq, Repr

/-- The crawl's mutable state: the frontier, the three dedup sets, the
per-collection stats, counters, the output stream written so far, and the
instrumentation trace (most recent event first). -/
structure CrawlState where
  frontier : List FrontierItem
  seenCols : List String
  seenIds : List String
  seenFiles : List (String × String)
  collStats : StatsMap
  visits : Nat
  totalIso : Nat
  dryStreak : Nat
  emitted : List DiscoveredFile
  trace : List Event
deriving DecidableEq, Repr

/-- Crawl configuration (the relevant CLI options). -/
structure Config where
  maxVisits : Nat
  maxDepth : Nat
  rows : Nat
  stopOnDrySpell : Nat
deriving DecidableEq, Repr

/-- Emit one discovered file (source lines 431-443 and 508-519): skip if
the `(identifier, file_name)` key was already emitted, else add the key,
append the record to the output stream and bump the iso counter. -/
def emitOne (s : CrawlState) (e : DiscoveredFile) : CrawlState :=
  let key := (e.identifier, e.file_name)
  if key ∈ s.seenFiles then s
  else { s with seenFiles := key :: s.seenFiles,
                emitted := s.emitted ++ [e],
                totalIso := s.totalIso + 1 }

/-- Emit a batch of discovered files in order. -/
def emitAll (s : CrawlState) (es : List DiscoveredFile) : CrawlState :=
  es.foldl emitOne s

/-- Push one related collection (source lines 446-454 and 523-530): skip if
already visited, else push with the yield-ratio priority. -/
def pushRel (depth : Nat) (s : CrawlState) (rc : String) : CrawlState :=
  if rc ∈ s.seenCols then s
  else
    let item : FrontierItem :=
      { priority := ratio s.collStats rc, kind := NodeKind.collection,
        value := rc, depth := depth + 1, stats_key := rc }
    { s with frontier := push_frontier s.frontier item }

/-- Push every related collection of a record, in order. -/
def pushRelated (s : CrawlState) (depth : Nat) (rcs : List String) :
    CrawlState :=
  rcs.foldl (pushRel depth) s

/-- Process one search-result doc inside a collection traversal (source
lines 413-454): dedup on the identifier, count the item for the collection,
fetch its metadata, emit its ISO files and push its related collections. -/
def processDoc (net : Net) (coll : String) (depth : Nat) (s : CrawlState)
    (doc : Doc) : CrawlState :=
  let identifier := doc.identifier.trim
  let title := doc.title.trim
  if identifier = "" then s
  else if identifier ∈ s.seenIds then s
  else
    let s := { s with seenIds := identifier :: s.seenIds,
                      trace := Event.visitId identifier :: s.trace,
                      collStats := incItems s.collStats coll }
    match net.meta identifier with
    | none => s
    | some m =>
      let s := emitAll s (extract_iso_entries identifier title m)
      pushRelated s depth (related_collections_from_meta m)

/-- Process all docs of one page. -/
def processDocs (net : Net) (coll : String) (depth : Nat)
    (docs : List Doc) (s : CrawlState) : CrawlState :=
  docs.foldl (processDoc net coll depth) s

/-- Traverse the remaining pages `2 .. total_pages` (source lines 402-411):
a failed fetch breaks the traversal; a successful one is recorded and its
docs are processed. -/
def runPages (cfg : Config) (net : Net) (coll : String) (depth : Nat) :
    List Nat → CrawlState → CrawlState
  | [], s => s
  | p :: ps, s =>
    match net.search coll cfg.rows p with
    | none => { s with trace := Event.fetchPage coll p none :: s.trace }
    | some pg =>
      let s := { s with
        trace := Event.fetchPage coll p (some pg.docs.length) :: s.trace }
      runPages cfg net coll depth ps (processDocs net coll depth pg.docs s)

/-- The page-count computation of source line 399:
`total_pages = max(1, (num_found + rows - 1) // rows)`. -/
def total_pages (numFound rows : Nat) : Nat :=
  max 1 ((numFound + rows - 1) / rows)

/-- Why the crawl loop ended: frontier empty, visit cap reached, or the
dry-streak threshold hit. -/
inductive StopReason where
  | exhausted
  | limitReached
  | dryStreakStopped
deriving DecidableEq, Repr

/-- Result of one iteration of the crawl loop body: continue with a new
state, or stop there with a reason. -/
inductive StepResult where
  | next (s : CrawlState)
  | halt (s : CrawlState) (r : StopReason)
deriving DecidableEq, Repr

/-- The successful-first-page part of a collection visit (source lines
397-482): record the fetch, page through all pages, then attribute the
new iso count, update the dry streak, re-weigh the frontier and apply the
dry-streak stop check. -/
def collTail (cfg : Config) (net : Net) (coll : String) (depth : Nat)
    (pg : SearchPage) (s : CrawlState) : StepResult :=
  let s := { s with
    trace := Event.fetchPage coll 1 (some pg.docs.length) :: s.trace }
  let pages := total_pages pg.numFound cfg.rows
  let isoStart := s.totalIso
  let s := processDocs net coll depth pg.docs s
  let s := runPages cfg net coll depth (List.range' 2 (pages - 1)) s
  let newIsos := s.totalIso - isoStart
  let s := { s with collStats := addIsos s.collStats coll newIsos }
  let s := { s with
    dryStreak := if newIsos = 0 then s.dryStreak + 1 else 0 }
  let s := { s with frontier := reprioritizeAll s.collStats s.frontier }
  if cfg.stopOnDrySpell ≤ s.dryStreak then
    StepResult.halt s StopReason.dryStreakStopped
  else StepResult.next s

/-- Processing of a fresh, depth-admissible collection node (source
lines 382-482, after the guards): mark it visited and count the visit,
fetch the first page (a failure abandons the node), page through the
item listing, then attribute the newly found iso count, update the dry
streak, re-weigh the frontier and check the dry-streak stop. -/
def visitCollection (cfg : Config) (net : Net) (coll : String)
    (depth : Nat) (s : CrawlState) : StepResult :=
  let s := { s with visits := s.visits + 1,
                    seenCols := coll :: s.seenCols,
                    trace := Event.visitCol coll :: s.trace }
  match net.search coll cfg.rows 1 with
  | none =>
    StepResult.next { s with trace := Event.fetchPage coll 1 none :: s.trace }
  | some pg => collTail cfg net coll depth pg s

/-- Processing of a fresh identifier node (source lines 484-535, after the
guard): mark it visited and count the visit, fetch its record, emit its
ISO files, push its parent collections without attributing stats, and
check the dry-streak stop. -/
def visitIdentifier (cfg : Config) (net : Net) (ident : String)
    (depth : Nat) (s : CrawlState) : StepResult :=
  let s := { s with visits := s.visits + 1,
                    seenIds := ident :: s.seenIds,
                    trace := Event.visitId ident :: s.trace }
  match net.meta ident with
  | none => StepResult.next s
  | some m =>
    let title := m.metadata.title
    let s := emitAll s (extract_iso_entries ident title m)
    let s := pushRelated s depth (related_collections_from_meta m)
    if cfg.stopOnDrySpell ≤ s.dryStreak then
      StepResult.halt s StopReason.dryStreakStopped
    else StepResult.next s

/-- One iteration of the crawl loop body (source lines 369-535): pop a
node; skip it when already seen (or, for collections, too deep); otherwise
process it with the matching branch. -/
def step (cfg : Config) (net : Net) (s : CrawlState) : StepResult :=
  match pop_frontier s.frontier with
  | none => StepResult.halt s StopReason.exhausted
  | some (node, rest) =>
    let s := { s with frontier := rest }
    if node.kind = NodeKind.collection then
      if node.value ∈ s.seenCols then StepResult.next s
      else if cfg.maxDepth < node.depth then StepResult.next s
      else visitCollection cfg net node.value node.depth s
    else
      if node.value ∈ s.seenIds then StepResult.next s
      else visitIdentifier cfg net node.value node.depth s

/-- The crawl loop (source line 351), with explicit fuel so that runs are
kernel-computable: `none` means the fuel ran out before a terminal state.
The loop runs while the frontier is non-empty and the visit counter is
below the cap; dry-streak stops come out of the body. -/
def loopF (cfg : Config) (net : Net) : Nat → CrawlState →
    Option (CrawlState × StopReason)
  | 0, _ => none
  | n + 1, s =>
    if s.frontier.isEmpty then some (s, StopReason.exhausted)
    else if cfg.maxVisits ≤ s.visits then some (s, StopReason.limitReached)
    else
      match step cfg net s with
      | StepResult.next s2 => loopF cfg net n s2
      | StepResult.halt s2 r => some (s2, r)

/-- The empty crawl state (source lines 318-336). -/
def initialState : CrawlState :=
  { frontier := [], seenCols := [], seenIds := [], seenFiles := [],
    collStats := [], visits := 0, totalIso := 0, dryStreak := 0,
    emitted := [], trace := [] }

/-- Push one classified seed (source lines 327-332) with priority 1.0 at
depth 0; collections carry themselves as stats key, identifiers none. -/
def seedPush (net : Net) (s : CrawlState) (seed : String) : CrawlState :=
  match classify_seed net seed with
  | NodeKind.collection =>
    let item : FrontierItem :=
      { priority := 1, kind := NodeKind.collection, value := seed,
        depth := 0, stats_key := seed }
    { s with frontier := push_frontier s.frontier item }
  | NodeKind.identifier =>
    let item : FrontierItem :=
      { priority := 1, kind := NodeKind.identifier, value := seed,
        depth := 0, stats_key := "" }
    { s with frontier := push_frontier s.frontier item }

/-- Seeding (source lines 327-332): classify each seed and push it. -/
def seedState (net : Net) (seeds : List String) : CrawlState :=
  seeds.foldl (seedPush net) initialState

/-- A whole crawl run from the given seeds with the given fuel. -/
def crawl (cfg : Config) (net : Net) (seeds : List String) (fuel : Nat) :
    Option (CrawlState × StopReason) :=
  loopF cfg net fuel (seedState net seeds)

/-- The trace of a finished run (`[]` when the fuel ran out). -/
def finalTrace (o : Option (CrawlState × StopReason)) : List Event :=
  match o with
  | none => []
  | some (s, _) => s.trace

/-- The output stream of a finished run (`[]` when the fuel ran out). -/
def finalEmitted (o : Option (CrawlState × StopReason)) :
    List DiscoveredFile :=
  match o with
  | none => []
  | some (s, _) => s.emitted

/-- The collection ids of the visit-start events in a trace. -/
def visitCols (tr : List Event) : List String :=
  tr.filterMap (fun e =>
    match e with
    | Event.visitCol c => some c
    | _ => none)

/-- The item identifiers of the visit-start events in a trace. -/
def visitIds (tr : List Event) : List String :=
  tr.filterMap (fun e =>
    match e with
    | Event.visitId i => some i
    | _ => none)

/-- The chronological fetch log of one collection: pairs of page number
and result. -/
def fetchLog (tr : List Event) (c : String) : List (Nat × Option Nat) :=
  (tr.filterMap (fun e =>
    match e with
    | Event.fetchPage c2 p r => if c2 = c then some (p, r) else none
    | _ => none)).reverse

/-- The `(identifier, fileName)` keys of the output stream, in order. -/
def emitKeys (es : List DiscoveredFile) : List (String × String) :=
  es.map (fun e => (e.identifier, e.file_name))

/-- One iteration of the heartbeat worker's `try` block
(`_heartbeat_worker`, source lines 71-125): first the running check (break
when the flag is down), then the tick work, whose possible exception is
abstracted as an `Except` value.  `ok true` = break, `ok false` = keep
looping, `error` = the tick raised. -/
def hbBody (running : Bool) (tick : Except String Unit) :
    Except String Bool :=
  if running = false then Except.ok true
  else
    match tick with
    | Except.ok _ => Except.ok false
    | Except.error e => Except.error e

/-- One whole heartbeat iteration including the `except: pass` handler
(source lines 126-128): an exception is swallowed and the loop continues.
Returns `true` exactly when the worker breaks out of its loop. -/
def hbStep (running : Bool) (tick : Except String Unit) : Bool :=
  match hbBody running tick with
  | Except.ok b => b
  | Except.error _ => false

/-- The heartbeat worker's `while True` loop run over a finite schedule of
iterations, each supplying the running flag it observes and its tick
outcome.  Returns `true` when the worker exited within the schedule. -/
def hbRun : List (Bool × Except String Unit) → Bool
  | [] => false
  | (r, t) :: rest => if hbStep r t then true else hbRun rest

/-- The state reached by one loop iteration, whether it continued or
stopped. -/
def outState : StepResult → CrawlState
  | StepResult.next s => s
  | StepResult.halt s _ => s

/-- The dedup invariant tying the instrumentation to the seen sets: each
visit-start list and the emitted key list are duplicate-free, and every
recorded id is in its seen set. -/
def Inv (s : CrawlState) : Prop :=
  (visitCols s.trace).Nodup ∧ (∀ c ∈ visitCols s.trace, c ∈ s.seenCols) ∧
  (visitIds s.trace).Nodup ∧ (∀ i ∈ visitIds s.trace, i ∈ s.seenIds) ∧
  (emitKeys s.emitted).Nodup ∧ (∀ k ∈ emitKeys s.emitted, k ∈ s.seenFiles)

/-- What the inner processing helpers preserve: the visit counter is
untouched, the seen sets only grow, and the dedup invariant is carried
along. -/
def Pres (s s2 : CrawlState) : Prop :=
  s2.visits = s.visits ∧
  s.seenCols ⊆ s2.seenCols ∧ s.seenIds ⊆ s2.seenIds ∧
  s.seenFiles ⊆ s2.seenFiles ∧
  (Inv s → Inv s2)

/-- Stable insertion of an item into a descending-sorted frontier, placed
after every element of at least its priority.  This is what appending and
stably re-sorting amounts to on an already sorted queue. -/
def insertD (x : FrontierItem) : List FrontierItem → List FrontierItem
  | [] => [x]
  | y :: ys => if x.priority ≤ y.priority then y :: insertD x ys else x :: y :: ys

/-- A whole sequence of pushes starting from the empty frontier. -/
def pushSeq (items : List FrontierItem) : List FrontierItem :=
  items.foldl push_frontier []

/-- Descending priority order as a relation on queue positions. -/
def descLE (a b : FrontierItem) : Prop := b.priority ≤ a.priority

/-- Strict queue order refined by insertion tag (the `depth` field doubles
as the insertion tag in the stability statements): strictly higher
priority first, ties by strictly smaller tag. -/
def frontRel (a b : FrontierItem) : Prop :=
  b.priority < a.priority ∨ (a.priority = b.priority ∧ a.depth < b.depth)

/-- Configuration used by the concrete scenarios: the source defaults
`max_visits=200, max_depth=4, rows=500, stop_on_dry_spell=25`. -/
def exCfg : Config :=
  { maxVisits := 200, maxDepth := 4, rows := 500, stopOnDrySpell := 25 }

/-- A cyclic collection graph: collection `A` holds one item whose record
references collection `B`, and vice versa. -/
def cycNet : Net :=
  { search := fun c _ p =>
      if c = "A" && p = 1 then
        some { numFound := 1, docs := [{ identifier := "itemA", title := "" }] }
      else if c = "B" && p = 1 then
        some { numFound := 1, docs := [{ identifier := "itemB", title := "" }] }
      else none,
    meta := fun id =>
      if id = "A" then
        some { files := [],
               metadata := { title := "", mediatype := "collection", collection := [] } }
      else if id = "B" then
        some { files := [],
               metadata := { title := "", mediatype := "collection", collection := [] } }
      else if id = "itemA" then
        some { files := [],
               metadata := { title := "", mediatype := "", collection := ["B"] } }
      else if id = "itemB" then
        some { files := [],
               metadata := { title := "", mediatype := "", collection := ["A"] } }
      else none }

/-- The item-seed scenario: one identifier whose record lists two
ISO-suffixed files and whose `metadata.collection` names collection `X`. -/
def itemNet : Net :=
  { search := fun _ _ _ => none,
    meta := fun id =>
      if id = "seed1" then
        some { files := [{ name := "alpha.iso", size := some "100" },
                         { name := "beta.ISO", size := none }],
               metadata := { title := "Seed Title", mediatype := "software",
                             collection := ["X"] } }
      else none }

/-- A stub document with an empty identifier (skipped by the doc loop
before any network cost). -/
def stubDoc : Doc := { identifier := "", title := "" }

/-- A compliant server for the paging scenario: collection `big` reports
`numFound = 1200` and serves pages of 500, 500 and 200 stub docs. -/
def bigNet : Net :=
  { search := fun c _ p =>
      if c = "big" && p = 1 then
        some { numFound := 1200, docs := List.replicate 500 stubDoc }
      else if c = "big" && p = 2 then
        some { numFound := 1200, docs := List.replicate 500 stubDoc }
      else if c = "big" && p = 3 then
        some { numFound := 1200, docs := List.replicate 200 stubDoc }
      else none,
    meta := fun id =>
      if id = "big" then
        some { files := [],
               metadata := { title := "", mediatype := "collection", collection := [] } }
      else none }

/-- `sortFrontier` permutes its input. -/
theorem sortFrontier_perm (l : List FrontierItem) : (sortFrontier l).Perm l :=
  List.mergeSort_perm l frontLE

/-- C6: the yield ratio used for priority scoring is exactly 1/2 when the
collection has no stats entry or a zero item count, and `isos / items`
when the item count is positive. -/
theorem ratio_spec (m : StatsMap) (key : String) :
    (statsGet m key = none → ratio m key = 1/2) ∧
    (∀ st, statsGet m key = some st → st.items = 0 → ratio m key = 1/2) ∧
    (∀ st, statsGet m key = some st → 0 < st.items →
      ratio m key = (st.isos : ℚ) / (st.items : ℚ)) := by
  refine ⟨?_, ?_, ?_⟩
  · intro h
    simp [ratio, h]
  · intro st h h0
    simp [ratio, h, h0]
  · intro st h h0
    have hmax : max 1 st.items = st.items := Nat.max_eq_right h0
    simp [ratio, h, h0, hmax]

/-- Closed witness for `ratio_spec`: a missing entry scores 1/2 and a
2-items/3-isos entry scores 3/2. -/
theorem ratio_spec_witness :
    ratio [] "c" = 1/2 ∧
    ratio [("c", { items := 2, isos := 3 })] "c" = (3 : ℚ) / (2 : ℚ) := by
  constructor
  · exact (ratio_spec [] "c").1 rfl
  · exact (ratio_spec [("c", { items := 2, isos := 3 })] "c").2.2
      { items := 2, isos := 3 } rfl (by decide)

/-- C5: after a collection finishes, the re-weigh pass maps every queued
collection node to priority `1 + ratio(statsKey)` when its stats entry has
a positive item count, else to `max(priority * 0.95, 0.1)`, and
`reprioritizeAll` applies this map to every still-queued node before
re-sorting. -/
theorem reprioritizeAll_spec :
    (∀ (m : StatsMap) (fi : FrontierItem), fi.kind = NodeKind.collection →
      (∀ st, statsGet m fi.stats_key = some st → 0 < st.items →
        (reprioritizeOne m fi).priority = 1 + ratio m fi.stats_key) ∧
      ((∀ st, statsGet m fi.stats_key = some st → st.items = 0) →
        (reprioritizeOne m fi).priority = max (fi.priority * (19/20)) (1/10))) ∧
    (∀ (m : StatsMap) (f : List FrontierItem),
      (reprioritizeAll m f).Perm (f.map (reprioritizeOne m))) := by
  constructor
  · intro m fi hk
    constructor
    · intro st h h0
      have hr := (ratio_spec m fi.stats_key).2.2 st h h0
      have hmax : max 1 st.items = st.items := Nat.max_eq_right h0
      simp [reprioritizeOne, hk, h, h0, hr, hmax]
    · intro hz
      rcases hs : statsGet m fi.stats_key with _ | st
      · simp [reprioritizeOne, hk, hs]
      · have h0 := hz st hs
        simp [reprioritizeOne, hk, hs, h0]
  · intro m f
    exact sortFrontier_perm _

/-- Closed witness for `reprioritizeAll_spec`: a queued collection node
keyed to a 1-item/1-iso entry is re-scored to `1 + 1 = 2`. -/
theorem reprioritizeAll_spec_witness :
    (reprioritizeOne [("k", { items := 1, isos := 1 })]
      { priority := 1/2, kind := NodeKind.collection, value := "k",
        depth := 1, stats_key := "k" }).priority =
      1 + ratio [("k", { items := 1, isos := 1 })] "k" :=
  ((reprioritizeAll_spec.1 [("k", { items := 1, isos := 1 })]
    { priority := 1/2, kind := NodeKind.collection, value := "k",
      depth := 1, stats_key := "k" } rfl).1
    { items := 1, isos := 1 } rfl (by decide))

/-- C9: a heartbeat iteration with the running flag up never exits the
worker loop, whatever its tick does (a raising tick is swallowed by the
handler); one with the flag down exits; over a whole schedule the worker
exits exactly when some iteration observed the flag down. -/
theorem heartbeat_never_stops :
    (∀ (r : Bool) (t : Except String Unit), r = true → hbStep r t = false) ∧
    (∀ t : Except String Unit, hbStep false t = true) ∧
    (∀ inputs : List (Bool × Except String Unit),
      hbRun inputs = true ↔ ∃ p ∈ inputs, p.1 = false) := by
  refine ⟨?_, ?_, ?_⟩
  · intro r t hr
    subst hr
    cases t <;> rfl
  · intro t
    rfl
  · intro inputs
    induction inputs with
    | nil => simp [hbRun]
    | cons p rest ih =>
      rcases p with ⟨r, t⟩
      cases r
      · simp [hbRun, hbStep, hbBody]
      · have hst : hbStep true t = false := by cases t <;> rfl
        simp [hbRun, hst, ih]

/-- Closed witness for `heartbeat_never_stops`: a raising tick while
running does not exit the loop. -/
theorem heartbeat_never_stops_witness :
    hbStep true (Except.error "boom") = false :=
  heartbeat_never_stops.1 true (Except.error "boom") rfl

/-- C10: when the first search page for a collection node fails, the loop
has already marked the collection visited and counted the visit, but it
abandons the node before touching the stats map, the dry-streak counter,
the queued frontier (beyond the pop) or any other crawl state. -/
theorem first_page_failure_frame (cfg : Config) (net : Net) (s : CrawlState)
    (node : FrontierItem) (rest : List FrontierItem)
    (hpop : pop_frontier s.frontier = some (node, rest))
    (hkind : node.kind = NodeKind.collection)
    (hfresh : node.value ∉ s.seenCols)
    (hdepth : node.depth ≤ cfg.maxDepth)
    (hfail : net.search node.value cfg.rows 1 = none) :
    ∃ s2, step cfg net s = StepResult.next s2 ∧
      s2.seenCols = node.value :: s.seenCols ∧
      s2.visits = s.visits + 1 ∧
      s2.collStats = s.collStats ∧
      s2.dryStreak = s.dryStreak ∧
      s2.frontier = rest ∧
      s2.seenIds = s.seenIds ∧
      s2.seenFiles = s.seenFiles ∧
      s2.emitted = s.emitted ∧
      s2.totalIso = s.totalIso := by
  rcases hf : s.frontier with _ | ⟨x, xs⟩
  · rw [hf] at hpop
    simp [pop_frontier] at hpop
  · rw [hf] at hpop
    simp only [pop_frontier, Option.some.injEq, Prod.mk.injEq] at hpop
    obtain ⟨hx, hxs⟩ := hpop
    subst hx
    subst hxs
    have hstep : step cfg net s = StepResult.next
        { s with frontier := xs,
                 visits := s.visits + 1,
                 seenCols := x.value :: s.seenCols,
                 trace := Event.fetchPage x.value 1 none ::
                   Event.visitCol x.value :: s.trace } := by
      simp [step, visitCollection, pop_frontier, hf, hkind, hfresh,
        Nat.not_lt.mpr hdepth, hfail]
    exact ⟨_, hstep, rfl, rfl, rfl, rfl, rfl, rfl, rfl, rfl, rfl⟩

/-- Closed witness for `first_page_failure_frame`: a fresh depth-0
collection node popped against a network whose searches all fail. -/
theorem first_page_failure_frame_witness :
    ∃ s2,
      step exCfg itemNet
        { frontier := [{ priority := 1, kind := NodeKind.collection,
                         value := "C", depth := 0, stats_key := "C" }],
          seenCols := [], seenIds := [], seenFiles := [],
          collStats := [("D", { items := 3, isos := 1 })], visits := 5,
          totalIso := 1, dryStreak := 2, emitted := [], trace := [] } =
        StepResult.next s2 ∧
      s2.seenCols = ["C"] ∧
      s2.visits = 6 ∧
      s2.collStats = [("D", { items := 3, isos := 1 })] ∧
      s2.dryStreak = 2 ∧
      s2.frontier = [] ∧
      s2.seenIds = [] ∧
      s2.seenFiles = [] ∧
      s2.emitted = [] ∧
      s2.totalIso = 1 :=
  first_page_failure_frame exCfg itemNet
    { frontier := [{ priority := 1, kind := NodeKind.collection,
                     value := "C", depth := 0, stats_key := "C" }],
      seenCols := [], seenIds := [], seenFiles := [],
      collStats := [("D", { items := 3, isos := 1 })], visits := 5,
      totalIso := 1, dryStreak := 2, emitted := [], trace := [] }
    { priority := 1, kind := NodeKind.collection, value := "C",
      depth := 0, stats_key := "C" }
    [] rfl rfl (by decide) (by decide) rfl

/-- C8: seeding with one identifier whose record lists two ISO files and
names collection X emits exactly those two DiscoveredFile records, pushes
collection X with the 0.5 baseline priority (X has no observed items) at
depth 1, and leaves the collection stats empty. -/
theorem item_seed_scenario :
    step exCfg itemNet (seedState itemNet ["seed1"]) =
      StepResult.next
        { frontier := [{ priority := 1/2, kind := NodeKind.collection,
                         value := "X", depth := 1, stats_key := "X" }],
          seenCols := [],
          seenIds := ["seed1"],
          seenFiles := [("seed1", "beta.ISO"), ("seed1", "alpha.iso")],
          collStats := [],
          visits := 1,
          totalIso := 2,
          dryStreak := 0,
          emitted := [{ identifier := "seed1", title := "Seed Title",
                        file_name := "alpha.iso",
                        downloadUrl := download_url "seed1" "alpha.iso",
                        size := "100" },
                      { identifier := "seed1", title := "Seed Title",
                        file_name := "beta.ISO",
                        downloadUrl := download_url "seed1" "beta.ISO",
                        size := "unknown" }],
          trace := [Event.visitId "seed1"] } := by
  with_unfolding_all decide

@[simp]
theorem visitCols_cons_col (c : String) (tr : List Event) :
    visitCols (Event.visitCol c :: tr) = c :: visitCols tr := rfl

@[simp]
theorem visitCols_cons_id (i : String) (tr : List Event) :
    visitCols (Event.visitId i :: tr) = visitCols tr := rfl

@[simp]
theorem visitCols_cons_fetch (c : String) (p : Nat) (r : Option Nat)
    (tr : List Event) :
    visitCols (Event.fetchPage c p r :: tr) = visitCols tr := rfl

@[simp]
theorem visitIds_cons_col (c : String) (tr : List Event) :
    visitIds (Event.visitCol c :: tr) = visitIds tr := rfl

@[simp]
theorem visitIds_cons_id (i : String) (tr : List Event) :
    visitIds (Event.visitId i :: tr) = i :: visitIds tr := rfl

@[simp]
theorem visitIds_cons_fetch (c : String) (p : Nat) (r : Option Nat)
    (tr : List Event) :
    visitIds (Event.fetchPage c p r :: tr) = visitIds tr := rfl

@[simp]
theorem emitKeys_append (l1 l2 : List DiscoveredFile) :
    emitKeys (l1 ++ l2) = emitKeys l1 ++ emitKeys l2 := by
  simp [emitKeys]

theorem pres_rfl (s : CrawlState) : Pres s s :=
  ⟨rfl, List.Subset.refl _, List.Subset.refl _, List.Subset.refl _, fun h => h⟩

theorem pres_trans {s1 s2 s3 : CrawlState} (h1 : Pres s1 s2)
    (h2 : Pres s2 s3) : Pres s1 s3 :=
  ⟨h2.1.trans h1.1, h1.2.1.trans h2.2.1, h1.2.2.1.trans h2.2.2.1,
   h1.2.2.2.1.trans h2.2.2.2.1, fun h => h2.2.2.2.2 (h1.2.2.2.2 h)⟩

theorem foldl_pres {α : Type} (f : CrawlState → α → CrawlState)
    (hf : ∀ s x, Pres s (f s x)) :
    ∀ (xs : List α) (s : CrawlState), Pres s (xs.foldl f s)
  | [], s => pres_rfl s
  | x :: xs, s => pres_trans (hf s x) (foldl_pres f hf xs (f s x))

theorem emitOne_pres (s : CrawlState) (e : DiscoveredFile) :
    Pres s (emitOne s e) := by
  simp only [emitOne]
  by_cases hk : (e.identifier, e.file_name) ∈ s.seenFiles
  · rw [if_pos hk]
    exact pres_rfl s
  · rw [if_neg hk]
    refine ⟨rfl, List.Subset.refl _, List.Subset.refl _,
      List.subset_cons_self _ _, ?_⟩
    rintro ⟨h1, h2, h3, h4, h5, h6⟩
    refine ⟨h1, h2, h3, h4, ?_, ?_⟩
    · simp only [emitKeys_append]
      rw [List.nodup_append]
      refine ⟨h5, List.nodup_singleton _, ?_⟩
      intro a ha1 ha2
      simp only [emitKeys, List.map_cons, List.map_nil,
        List.mem_singleton] at ha2
      subst ha2
      exact hk (h6 _ ha1)
    · intro k hkm
      simp only [emitKeys_append] at hkm
      rcases List.mem_append.mp hkm with hl | hr
      · exact List.mem_cons_of_mem _ (h6 _ hl)
      · simp only [emitKeys, List.map_cons, List.map_nil,
          List.mem_singleton] at hr
        subst hr
        exact List.mem_cons_self _ _

theorem emitAll_pres (s : CrawlState) (es : List DiscoveredFile) :
    Pres s (emitAll s es) :=
  foldl_pres emitOne emitOne_pres es s

theorem pushRel_pres (d : Nat) (s : CrawlState) (rc : String) :
    Pres s (pushRel d s rc) := by
  simp only [pushRel]
  by_cases h : rc ∈ s.seenCols
  · rw [if_pos h]
    exact pres_rfl s
  · rw [if_neg h]
    exact ⟨rfl, List.Subset.refl _, List.Subset.refl _, List.Subset.refl _,
      fun hi => hi⟩

theorem pushRelated_pres (s : CrawlState) (d : Nat) (rcs : List String) :
    Pres s (pushRelated s d rcs) :=
  foldl_pres (pushRel d) (pushRel_pres d) rcs s

theorem markId_pres (s : CrawlState) (coll i : String)
    (hi : i ∉ s.seenIds) :
    Pres s { s with seenIds := i :: s.seenIds,
                    trace := Event.visitId i :: s.trace,
                    collStats := incItems s.collStats coll } := by
  refine ⟨rfl, List.Subset.refl _, List.subset_cons_self _ _,
    List.Subset.refl _, ?_⟩
  rintro ⟨h1, h2, h3, h4, h5, h6⟩
  refine ⟨by simpa using h1, ?_, ?_, ?_, h5, h6⟩
  · intro c hc
    exact h2 c (by simpa using hc)
  · simp only [visitIds_cons_id]
    exact List.nodup_cons.mpr ⟨fun hmem => hi (h4 i hmem), h3⟩
  · intro j hj
    simp only [visitIds_cons_id] at hj
    rcases List.mem_cons.mp hj with hj | hj
    · subst hj
      exact List.mem_cons_self _ _
    · exact List.mem_cons_of_mem _ (h4 j hj)

theorem processDoc_pres (net : Net) (coll : String) (d : Nat)
    (s : CrawlState) (doc : Doc) : Pres s (processDoc net coll d s doc) := by
  simp only [processDoc]
  by_cases he : doc.identifier.trim = ""
  · rw [if_pos he]
    exact pres_rfl s
  · rw [if_neg he]
    by_cases hs : doc.identifier.trim ∈ s.seenIds
    · rw [if_pos hs]
      exact pres_rfl s
    · rw [if_neg hs]
      rcases hm : net.meta doc.identifier.trim with _ | m
      · simp only [hm]
        exact markId_pres s coll _ hs
      · simp only [hm]
        exact pres_trans (markId_pres s coll _ hs)
          (pres_trans (emitAll_pres _ _) (pushRelated_pres _ _ _))

theorem processDocs_pres (net : Net) (coll : String) (d : Nat)
    (docs : List Doc) (s : CrawlState) :
    Pres s (processDocs net coll d docs s) :=
  foldl_pres (processDoc net coll d) (processDoc_pres net coll d) docs s

theorem traceFetch_pres (s : CrawlState) (c : String) (p : Nat)
    (r : Option Nat) :
    Pres s { s with trace := Event.fetchPage c p r :: s.trace } := by
  refine ⟨rfl, List.Subset.refl _, List.Subset.refl _, List.Subset.refl _, ?_⟩
  rintro ⟨h1, h2, h3, h4, h5, h6⟩
  exact ⟨by simpa using h1, fun c hc => h2 c (by simpa using hc),
    by simpa using h3, fun i hi => h4 i (by simpa using hi), h5, h6⟩

theorem runPages_pres (cfg : Config) (net : Net) (coll : String) (d : Nat) :
    ∀ (ps : List Nat) (s : CrawlState), Pres s (runPages cfg net coll d ps s) := by
  intro ps
  induction ps with
  | nil => intro s; exact pres_rfl s
  | cons p ps ih =>
    intro s
    simp only [runPages]
    rcases hq : net.search coll cfg.rows p with _ | pg
    · exact traceFetch_pres s coll p none
    · exact pres_trans (traceFetch_pres s coll p (some pg.docs.length))
        (pres_trans (processDocs_pres net coll d pg.docs _) (ih _))

theorem outState_ite (c : Prop) [Decidable c] (s : CrawlState)
    (r : StopReason) :
    outState (if c then StepResult.halt s r else StepResult.next s) = s := by
  split <;> rfl

theorem markCol_inv (s : CrawlState) (c : String) (hc : c ∉ s.seenCols) :
    Inv s → Inv { s with visits := s.visits + 1,
                         seenCols := c :: s.seenCols,
                         trace := Event.visitCol c :: s.trace } := by
  rintro ⟨h1, h2, h3, h4, h5, h6⟩
  refine ⟨?_, ?_, by simpa using h3,
    fun i hi => h4 i (by simpa using hi), h5, h6⟩
  · simp only [visitCols_cons_col]
    exact List.nodup_cons.mpr ⟨fun hmem => hc (h2 c hmem), h1⟩
  · intro c2 hc2
    simp only [visitCols_cons_col] at hc2
    rcases List.mem_cons.mp hc2 with h | h
    · subst h
      exact List.mem_cons_self _ _
    · exact List.mem_cons_of_mem _ (h2 c2 h)

theorem markIdent_inv (s : CrawlState) (i : String) (hi : i ∉ s.seenIds) :
    Inv s → Inv { s with visits := s.visits + 1,
                         seenIds := i :: s.seenIds,
                         trace := Event.visitId i :: s.trace } := by
  rintro ⟨h1, h2, h3, h4, h5, h6⟩
  refine ⟨by simpa using h1, fun c hc => h2 c (by simpa using hc),
    ?_, ?_, h5, h6⟩
  · simp only [visitIds_cons_id]
    exact List.nodup_cons.mpr ⟨fun hmem => hi (h4 i hmem), h3⟩
  · intro j hj
    simp only [visitIds_cons_id] at hj
    rcases List.mem_cons.mp hj with h | h
    · subst h
      exact List.mem_cons_self _ _
    · exact List.mem_cons_of_mem _ (h4 j h)

theorem collTail_main (cfg : Config) (net : Net) (coll : String) (d : Nat)
    (pg : SearchPage) (t : CrawlState) :
    (outState (collTail cfg net coll d pg t)).visits = t.visits ∧
    (Inv t → Inv (outState (collTail cfg net coll d pg t))) := by
  have hP : ∀ u : CrawlState, Pres u
      (runPages cfg net coll d
        (List.range' 2 (total_pages pg.numFound cfg.rows - 1))
        (processDocs net coll d pg.docs u)) :=
    fun u => pres_trans (processDocs_pres net coll d pg.docs u)
      (runPages_pres cfg net coll d _ _)
  have hQ : ∀ u : CrawlState, Pres u
      (runPages cfg net coll d
        (List.range' 2 (total_pages pg.numFound cfg.rows - 1))
        (processDocs net coll d pg.docs
          { u with trace := Event.fetchPage coll 1 (some pg.docs.length) ::
              u.trace })) :=
    fun u => pres_trans (traceFetch_pres u coll 1 (some pg.docs.length)) (hP _)
  simp only [collTail]
  rw [outState_ite]
  exact ⟨(hQ t).1, fun hi => (hQ t).2.2.2.2 hi⟩

theorem visitCollection_main (cfg : Config) (net : Net) (coll : String)
    (d : Nat) (s : CrawlState) (hfresh : coll ∉ s.seenCols) :
    (outState (visitCollection cfg net coll d s)).visits = s.visits + 1 ∧
    (Inv s → Inv (outState (visitCollection cfg net coll d s))) := by
  simp only [visitCollection]
  rcases hq : net.search coll cfg.rows 1 with _ | pg <;> simp only [hq]
  · constructor
    · rfl
    · intro hi
      exact (traceFetch_pres _ coll 1 none).2.2.2.2
        (markCol_inv s coll hfresh hi)
  · have h := collTail_main cfg net coll d pg
      { s with visits := s.visits + 1, seenCols := coll :: s.seenCols,
               trace := Event.visitCol coll :: s.trace }
    exact ⟨h.1, fun hi => h.2 (markCol_inv s coll hfresh hi)⟩

theorem visitIdentifier_main (cfg : Config) (net : Net) (ident : String)
    (d : Nat) (s : CrawlState) (hfresh : ident ∉ s.seenIds) :
    (outState (visitIdentifier cfg net ident d s)).visits = s.visits + 1 ∧
    (Inv s → Inv (outState (visitIdentifier cfg net ident d s))) := by
  simp only [visitIdentifier]
  rcases hm : net.meta ident with _ | m <;> simp only [hm]
  · exact ⟨rfl, markIdent_inv s ident hfresh⟩
  · have hP : ∀ u : CrawlState, Pres u
        (pushRelated (emitAll u (extract_iso_entries ident m.metadata.title m))
          d (related_collections_from_meta m)) :=
      fun u => pres_trans (emitAll_pres u _) (pushRelated_pres _ d _)
    rw [outState_ite]
    exact ⟨(hP _).1, fun hi => (hP _).2.2.2.2
      (markIdent_inv s ident hfresh hi)⟩

theorem step_main (cfg : Config) (net : Net) (s : CrawlState) :
    (Inv s → Inv (outState (step cfg net s))) ∧
    (outState (step cfg net s)).visits ≤ s.visits + 1 ∧
    (∀ s2, step cfg net s = StepResult.next s2 →
      s2.visits = s.visits + 1 ∨
        (s2.visits = s.visits ∧ s.frontier.length = s2.frontier.length + 1)) := by
  rcases hf : s.frontier with _ | ⟨node, rest⟩
  · have hstep : step cfg net s = StepResult.halt s StopReason.exhausted := by
      simp [step, pop_frontier, hf]
    rw [hstep]
    exact ⟨fun h => h, Nat.le_succ _, fun s2 h => by simp at h⟩
  · have hpop : pop_frontier s.frontier = some (node, rest) := by
      rw [hf]
      rfl
    have hlen : s.frontier.length = rest.length + 1 := by
      rw [hf]
      rfl
    by_cases hkind : node.kind = NodeKind.collection
    · by_cases hseen : node.value ∈ s.seenCols
      · have hstep : step cfg net s =
            StepResult.next { s with frontier := rest } := by
          simp [step, hpop, hkind, hseen]
        rw [hstep]
        refine ⟨fun h => h, Nat.le_succ _, fun s2 h => ?_⟩
        injection h with h2
        subst h2
        exact Or.inr ⟨rfl, rfl⟩
      · by_cases hdeep : cfg.maxDepth < node.depth
        · have hstep : step cfg net s =
              StepResult.next { s with frontier := rest } := by
            simp [step, hpop, hkind, hseen, hdeep]
          rw [hstep]
          refine ⟨fun h => h, Nat.le_succ _, fun s2 h => ?_⟩
          injection h with h2
          subst h2
          exact Or.inr ⟨rfl, rfl⟩
        · have hstep : step cfg net s = visitCollection cfg net node.value
              node.depth { s with frontier := rest } := by
            simp [step, hpop, hkind, hseen, hdeep]
          have hm := visitCollection_main cfg net node.value node.depth
            { s with frontier := rest } hseen
          rw [hstep]
          refine ⟨hm.2, le_of_eq hm.1, fun s2 h => ?_⟩
          have hv := hm.1
          rw [h] at hv
          exact Or.inl hv
    · by_cases hseen : node.value ∈ s.seenIds
      · have hstep : step cfg net s =
            StepResult.next { s with frontier := rest } := by
          simp [step, hpop, hkind, hseen]
        rw [hstep]
        refine ⟨fun h => h, Nat.le_succ _, fun s2 h => ?_⟩
        injection h with h2
        subst h2
        exact Or.inr ⟨rfl, rfl⟩
      · have hstep : step cfg net s = visitIdentifier cfg net node.value
            node.depth { s with frontier := rest } := by
          simp [step, hpop, hkind, hseen]
        have hm := visitIdentifier_main cfg net node.value node.depth
          { s with frontier := rest } hseen
        rw [hstep]
        refine ⟨hm.2, le_of_eq hm.1, fun s2 h => ?_⟩
        have hv := hm.1
        rw [h] at hv
        exact Or.inl hv

theorem seedPush_pres (net : Net) (s : CrawlState) (seed : String) :
    Pres s (seedPush net s seed) := by
  simp only [seedPush]
  rcases classify_seed net seed
  · exact ⟨rfl, List.Subset.refl _, List.Subset.refl _, List.Subset.refl _,
      fun h => h⟩
  · exact ⟨rfl, List.Subset.refl _, List.Subset.refl _, List.Subset.refl _,
      fun h => h⟩

theorem initialState_inv : Inv initialState := by
  refine ⟨?_, ?_, ?_, ?_, ?_, ?_⟩ <;>
    simp [initialState, Inv, visitCols, visitIds, emitKeys]

theorem seed_inv (net : Net) (seeds : List String) :
    Inv (seedState net seeds) :=
  (foldl_pres (seedPush net) (seedPush_pres net) seeds initialState).2.2.2.2
    initialState_inv

theorem seed_visits (net : Net) (seeds : List String) :
    (seedState net seeds).visits = 0 :=
  (foldl_pres (seedPush net) (seedPush_pres net) seeds initialState).1

theorem loopF_inv (cfg : Config) (net : Net) :
    ∀ (n : Nat) (s sf : CrawlState) (r : StopReason),
      loopF cfg net n s = some (sf, r) → Inv s → Inv sf := by
  intro n
  induction n with
  | zero =>
    intro s sf r h
    simp [loopF] at h
  | succ n ih =>
    intro s sf r h hi
    simp only [loopF] at h
    by_cases h1 : s.frontier.isEmpty
    · rw [if_pos h1] at h
      simp only [Option.some.injEq, Prod.mk.injEq] at h
      obtain ⟨h2, h3⟩ := h
      subst h2
      exact hi
    · rw [if_neg h1] at h
      by_cases h2 : cfg.maxVisits ≤ s.visits
      · rw [if_pos h2] at h
        simp only [Option.some.injEq, Prod.mk.injEq] at h
        obtain ⟨h3, h4⟩ := h
        subst h3
        exact hi
      · rw [if_neg h2] at h
        rcases hst : step cfg net s with s2 | ⟨s2, r2⟩ <;> rw [hst] at h
        · have hinv2 := (step_main cfg net s).1 hi
          rw [hst] at hinv2
          exact ih s2 sf r h hinv2
        · have hinv2 := (step_main cfg net s).1 hi
          rw [hst] at hinv2
          simp only [Option.some.injEq, Prod.mk.injEq] at h
          obtain ⟨h3, h4⟩ := h
          subst h3
          exact hinv2

theorem loopF_visits_le (cfg : Config) (net : Net) :
    ∀ (n : Nat) (s sf : CrawlState) (r : StopReason),
      loopF cfg net n s = some (sf, r) → s.visits ≤ cfg.maxVisits →
      sf.visits ≤ cfg.maxVisits := by
  intro n
  induction n with
  | zero =>
    intro s sf r h
    simp [loopF] at h
  | succ n ih =>
    intro s sf r h hv
    simp only [loopF] at h
    by_cases h1 : s.frontier.isEmpty
    · rw [if_pos h1] at h
      simp only [Option.some.injEq, Prod.mk.injEq] at h
      obtain ⟨h2, h3⟩ := h
      subst h2
      exact hv
    · rw [if_neg h1] at h
      by_cases h2 : cfg.maxVisits ≤ s.visits
      · rw [if_pos h2] at h
        simp only [Option.some.injEq, Prod.mk.injEq] at h
        obtain ⟨h3, h4⟩ := h
        subst h3
        exact hv
      · rw [if_neg h2] at h
        have hle := (step_main cfg net s).2.1
        rcases hst : step cfg net s with s2 | ⟨s2, r2⟩ <;> rw [hst] at h hle
        · exact ih s2 sf r h (by simp only [outState] at hle; omega)
        · simp only [Option.some.injEq, Prod.mk.injEq] at h
          obtain ⟨h3, h4⟩ := h
          subst h3
          simp only [outState] at hle
          omega

theorem loopF_term_aux (cfg : Config) (net : Net) :
    ∀ (V F : Nat) (s : CrawlState),
      cfg.maxVisits - s.visits ≤ V → s.frontier.length ≤ F →
      ∃ n out, loopF cfg net n s = some out := by
  intro V
  induction V with
  | zero =>
    intro F s hV hF
    by_cases h1 : s.frontier.isEmpty
    · exact ⟨1, (s, StopReason.exhausted), by simp [loopF, h1]⟩
    · have h2 : cfg.maxVisits ≤ s.visits := by omega
      exact ⟨1, (s, StopReason.limitReached), by simp [loopF, h1, h2]⟩
  | succ V ihV =>
    intro F
    induction F with
    | zero =>
      intro s hV hF
      have h1 : s.frontier.isEmpty := by
        rcases hf : s.frontier with _ | ⟨a, l⟩
        · rfl
        · rw [hf] at hF
          simp at hF
      exact ⟨1, (s, StopReason.exhausted), by simp [loopF, h1]⟩
    | succ F ihF =>
      intro s hV hF
      by_cases h1 : s.frontier.isEmpty
      · exact ⟨1, (s, StopReason.exhausted), by simp [loopF, h1]⟩
      · by_cases h2 : cfg.maxVisits ≤ s.visits
        · exact ⟨1, (s, StopReason.limitReached), by simp [loopF, h1, h2]⟩
        · rcases hst : step cfg net s with s2 | ⟨s2, r2⟩
          · rcases (step_main cfg net s).2.2 s2 hst with hv | ⟨hv, hl⟩
            · have hV2 : cfg.maxVisits - s2.visits ≤ V := by omega
              obtain ⟨n, out, hn⟩ := ihV s2.frontier.length s2 hV2 (le_refl _)
              exact ⟨n + 1, out, by simp [loopF, h1, h2, hst, hn]⟩
            · have hF2 : s2.frontier.length ≤ F := by omega
              have hV2 : cfg.maxVisits - s2.visits ≤ V + 1 := by omega
              obtain ⟨n, out, hn⟩ := ihF s2 hV2 hF2
              exact ⟨n + 1, out, by simp [loopF, h1, h2, hst, hn]⟩
          · exact ⟨1, (s2, r2), by simp [loopF, h1, h2, hst]⟩

/-- C1: in any crawl run (any configuration, network behavior, seed list
and fuel), no collection id and no item identifier is ever
visited/processed twice: ids enter their seen set the moment processing
begins and later pops of the same value are skipped, so every id occurs at
most once among the visit-start events. -/
theorem visit_once (cfg : Config) (net : Net) (seeds : List String)
    (fuel : Nat) (X : String) :
    (visitCols (finalTrace (crawl cfg net seeds fuel))).count X ≤ 1 ∧
    (visitIds (finalTrace (crawl cfg net seeds fuel))).count X ≤ 1 := by
  rcases hr : crawl cfg net seeds fuel with _ | ⟨sf, r⟩
  · simp [finalTrace, visitCols, visitIds]
  · have hinv := loopF_inv cfg net fuel _ sf r hr (seed_inv net seeds)
    obtain ⟨h1, h2, h3, h4, h5, h6⟩ := hinv
    simp only [finalTrace]
    exact ⟨List.nodup_iff_count_le_one.mp h1 X,
      List.nodup_iff_count_le_one.mp h3 X⟩

/-- C2: the crawl loop always reaches a terminal state for some finite
fuel, the final visit count never exceeds the configured maximum, and on
the cyclic graph where collection A references B and B references A the
run visits A and B exactly once each and then stops with an exhausted
frontier. -/
theorem crawl_terminates :
    (∀ (cfg : Config) (net : Net) (s : CrawlState),
      ∃ n out, loopF cfg net n s = some out) ∧
    (∀ (cfg : Config) (net : Net) (seeds : List String) (n : Nat)
      (sf : CrawlState) (r : StopReason),
      crawl cfg net seeds n = some (sf, r) → sf.visits ≤ cfg.maxVisits) ∧
    ((visitCols (finalTrace (crawl exCfg cycNet ["A"] 10))).count "A" = 1 ∧
     (visitCols (finalTrace (crawl exCfg cycNet ["A"] 10))).count "B" = 1 ∧
     Option.map Prod.snd (crawl exCfg cycNet ["A"] 10) =
       some StopReason.exhausted) := by
  refine ⟨?_, ?_, ?_⟩
  · intro cfg net s
    exact loopF_term_aux cfg net (cfg.maxVisits - s.visits)
      s.frontier.length s (le_refl _) (le_refl _)
  · intro cfg net seeds n sf r h
    exact loopF_visits_le cfg net n _ sf r h
      (by rw [seed_visits]; exact Nat.zero_le _)
  · refine ⟨?_, ?_, ?_⟩ <;> with_unfolding_all decide

/-- Closed witness for `crawl_terminates`: the cyclic two-collection
crawl reaches a terminal state for some fuel. -/
theorem crawl_terminates_witness :
    ∃ n out, loopF exCfg cycNet n (seedState cycNet ["A"]) = some out :=
  crawl_terminates.1 exCfg cycNet (seedState cycNet ["A"])

/-- C4: in any crawl run, no `(identifier, fileName)` pair is written to
the output stream twice: the emitted key list of the final output is
duplicate-free, equivalently every key appears at most once. -/
theorem emit_once (cfg : Config) (net : Net) (seeds : List String)
    (fuel : Nat) :
    (emitKeys (finalEmitted (crawl cfg net seeds fuel))).Nodup ∧
    (∀ k : String × String,
      ¬ (emitKeys (finalEmitted (crawl cfg net seeds fuel))).Duplicate k) := by
  rcases hr : crawl cfg net seeds fuel with _ | ⟨sf, r⟩
  · simp [finalEmitted, emitKeys]
  · have hinv := loopF_inv cfg net fuel _ sf r hr (seed_inv net seeds)
    obtain ⟨h1, h2, h3, h4, h5, h6⟩ := hinv
    simp only [finalEmitted]
    exact ⟨h5, fun k => List.nodup_iff_forall_not_duplicate.mp h5 k⟩

theorem foldl_fix {α β : Type} (g : CrawlState → β)
    (f : CrawlState → α → CrawlState) (hf : ∀ s x, g (f s x) = g s) :
    ∀ (xs : List α) (s : CrawlState), g (xs.foldl f s) = g s
  | [], _ => rfl
  | x :: xs, s => (foldl_fix g f hf xs (f s x)).trans (hf s x)

theorem emitOne_trace (s : CrawlState) (e : DiscoveredFile) :
    (emitOne s e).trace = s.trace := by
  simp only [emitOne]
  split <;> rfl

theorem emitAll_trace (s : CrawlState) (es : List DiscoveredFile) :
    (emitAll s es).trace = s.trace :=
  foldl_fix (fun u => u.trace) emitOne emitOne_trace es s

theorem pushRel_trace (d : Nat) (s : CrawlState) (rc : String) :
    (pushRel d s rc).trace = s.trace := by
  simp only [pushRel]
  split <;> rfl

theorem pushRelated_trace (s : CrawlState) (d : Nat) (rcs : List String) :
    (pushRelated s d rcs).trace = s.trace :=
  foldl_fix (fun u => u.trace) (pushRel d) (pushRel_trace d) rcs s

@[simp]
theorem fetchLog_cons_col (c2 : String) (tr : List Event) (c : String) :
    fetchLog (Event.visitCol c2 :: tr) c = fetchLog tr c := rfl

@[simp]
theorem fetchLog_cons_id (i : String) (tr : List Event) (c : String) :
    fetchLog (Event.visitId i :: tr) c = fetchLog tr c := rfl

theorem fetchLog_cons_fetch_self (c : String) (p : Nat) (r : Option Nat)
    (tr : List Event) :
    fetchLog (Event.fetchPage c p r :: tr) c = fetchLog tr c ++ [(p, r)] := by
  simp [fetchLog]

theorem processDoc_fetchLog (net : Net) (coll : String) (d : Nat)
    (s : CrawlState) (doc : Doc) (c : String) :
    fetchLog (processDoc net coll d s doc).trace c = fetchLog s.trace c := by
  simp only [processDoc]
  by_cases he : doc.identifier.trim = ""
  · rw [if_pos he]
  · rw [if_neg he]
    by_cases hs : doc.identifier.trim ∈ s.seenIds
    · rw [if_pos hs]
    · rw [if_neg hs]
      rcases hm : net.meta doc.identifier.trim with _ | m <;> simp only [hm]
      · exact fetchLog_cons_id _ _ _
      · rw [pushRelated_trace, emitAll_trace]
        exact fetchLog_cons_id _ _ _

theorem processDocs_fetchLog (net : Net) (coll : String) (d : Nat)
    (docs : List Doc) (s : CrawlState) (c : String) :
    fetchLog (processDocs net coll d docs s).trace c = fetchLog s.trace c :=
  foldl_fix (fun u => fetchLog u.trace c) (processDoc net coll d)
    (fun u doc => processDoc_fetchLog net coll d u doc c) docs s

theorem runPages_fetchLog (cfg : Config) (net : Net) (coll : String)
    (d : Nat) :
    ∀ (ps : List Nat) (s : CrawlState),
      (∀ p ∈ ps, ∃ q, net.search coll cfg.rows p = some q) →
      (fetchLog (runPages cfg net coll d ps s).trace coll).length =
        (fetchLog s.trace coll).length + ps.length := by
  intro ps
  induction ps with
  | nil =>
    intro s _
    rfl
  | cons p ps ih =>
    intro s h
    obtain ⟨q, hq⟩ := h p (List.mem_cons_self p ps)
    simp only [runPages, hq]
    rw [ih _ (fun p2 hp2 => h p2 (List.mem_cons_of_mem _ hp2))]
    rw [processDocs_fetchLog]
    have := fetchLog_cons_fetch_self coll p (some q.docs.length) s.trace
    rw [this]
    simp only [List.length_append, List.length_cons, List.length_nil]
    omega

theorem collTail_fetchCount (cfg : Config) (net : Net) (coll : String)
    (d : Nat) (pg : SearchPage) (s : CrawlState)
    (hrest : ∀ p, 2 ≤ p → p ≤ total_pages pg.numFound cfg.rows →
      ∃ q, net.search coll cfg.rows p = some q) :
    (fetchLog (outState (collTail cfg net coll d pg s)).trace coll).length =
      (fetchLog s.trace coll).length + total_pages pg.numFound cfg.rows := by
  have hps : ∀ p ∈ List.range' 2 (total_pages pg.numFound cfg.rows - 1),
      ∃ q, net.search coll cfg.rows p = some q := by
    intro p hp
    rw [List.mem_range'_1] at hp
    have h1 : 1 ≤ total_pages pg.numFound cfg.rows :=
      le_max_left 1 _
    exact hrest p hp.1 (by omega)
  simp only [collTail]
  rw [outState_ite]
  show (fetchLog (runPages cfg net coll d
      (List.range' 2 (total_pages pg.numFound cfg.rows - 1))
      (processDocs net coll d pg.docs
        { s with trace := Event.fetchPage coll 1 (some pg.docs.length) ::
            s.trace })).trace coll).length = _
  rw [runPages_fetchLog cfg net coll d _ _ hps]
  rw [processDocs_fetchLog]
  show ((fetchLog (Event.fetchPage coll 1 (some pg.docs.length) ::
      s.trace) coll).length + _ : Nat) = _
  rw [fetchLog_cons_fetch_self]
  simp only [List.length_append, List.length_cons, List.length_nil,
    List.length_range']
  have h1 : 1 ≤ total_pages pg.numFound cfg.rows := le_max_left 1 _
  omega

theorem visitCollection_fetchCount (cfg : Config) (net : Net)
    (coll : String) (d : Nat) (s : CrawlState) (pg : SearchPage)
    (hq : net.search coll cfg.rows 1 = some pg)
    (hrest : ∀ p, 2 ≤ p → p ≤ total_pages pg.numFound cfg.rows →
      ∃ q, net.search coll cfg.rows p = some q) :
    (fetchLog (outState (visitCollection cfg net coll d s)).trace coll).length
      = (fetchLog s.trace coll).length + total_pages pg.numFound cfg.rows := by
  simp only [visitCollection, hq]
  rw [collTail_fetchCount cfg net coll d pg _ hrest]
  rfl

/-- C7: the page count computed for a collection equals
`max(1, ceil(numFound / rows))`; whenever the first page reports
`numFound` and no later page fails, a collection visit performs exactly
that many page fetches; concretely, `numFound = 1200` with `rows = 500`
yields exactly 3 fetched pages sized 500, 500 and 200. -/
theorem page_count_spec :
    (∀ N R : Nat, 0 < R → total_pages N R = max 1 ⌈(N : ℚ) / (R : ℚ)⌉₊) ∧
    (∀ (cfg : Config) (net : Net) (coll : String) (d : Nat) (s : CrawlState)
      (pg : SearchPage),
      net.search coll cfg.rows 1 = some pg →
      (∀ p, 2 ≤ p → p ≤ total_pages pg.numFound cfg.rows →
        ∃ q, net.search coll cfg.rows p = some q) →
      (fetchLog (outState (visitCollection cfg net coll d s)).trace
        coll).length =
        (fetchLog s.trace coll).length + total_pages pg.numFound cfg.rows) ∧
    (fetchLog (finalTrace (crawl exCfg bigNet ["big"] 5)) "big" =
      [(1, some 500), (2, some 500), (3, some 200)]) := by
  refine ⟨?_, ?_, ?_⟩
  · intro N R hR
    unfold total_pages
    congr 1
    have hdm := Nat.div_add_mod (N + R - 1) R
    have hmod : (N + R - 1) % R < R := Nat.mod_lt _ hR
    have hA : N ≤ R * ((N + R - 1) / R) := by omega
    have hRq : (0 : ℚ) < (R : ℚ) := by exact_mod_cast hR
    apply le_antisymm
    · have hc := Nat.le_ceil ((N : ℚ) / (R : ℚ))
      have h1 : (N : ℚ) ≤ (⌈(N : ℚ) / (R : ℚ)⌉₊ : ℚ) * R :=
        calc (N : ℚ) = (N : ℚ) / R * R :=
              (div_mul_cancel₀ _ (ne_of_gt hRq)).symm
          _ ≤ (⌈(N : ℚ) / (R : ℚ)⌉₊ : ℚ) * R :=
              mul_le_mul_of_nonneg_right hc (le_of_lt hRq)
      have h2 : N ≤ ⌈(N : ℚ) / (R : ℚ)⌉₊ * R := by exact_mod_cast h1
      have hsm : (⌈(N : ℚ) / (R : ℚ)⌉₊ + 1) * R =
          ⌈(N : ℚ) / (R : ℚ)⌉₊ * R + R := by ring
      have h3 : N + R - 1 < (⌈(N : ℚ) / (R : ℚ)⌉₊ + 1) * R := by omega
      have h4 := (Nat.div_lt_iff_lt_mul hR).mpr h3
      omega
    · rw [Nat.ceil_le, div_le_iff₀ hRq]
      have h5 : N ≤ (N + R - 1) / R * R := by
        rw [Nat.mul_comm] at hA
        exact hA
      exact_mod_cast h5
  · intro cfg net coll d s pg hq hrest
    exact visitCollection_fetchCount cfg net coll d s pg hq hrest
  · set_option maxRecDepth 4000 in with_unfolding_all decide

/-- Closed witness for `page_count_spec`: the page-count formula at the
scenario numbers `numFound = 1200`, `rows = 500`. -/
theorem page_count_spec_witness :
    total_pages 1200 500 = max 1 ⌈(1200 : ℚ) / (500 : ℚ)⌉₊ :=
  page_count_spec.1 1200 500 (by decide)

theorem frontLE_trans : ∀ (a b c : FrontierItem),
    frontLE a b → frontLE b c → frontLE a c := by
  intro a b c hab hbc
  simp only [frontLE, decide_eq_true_eq] at hab hbc ⊢
  exact le_trans hbc hab

theorem frontLE_total : ∀ (a b : FrontierItem),
    frontLE a b || frontLE b a := by
  intro a b
  simp only [frontLE, Bool.or_eq_true, decide_eq_true_eq]
  exact le_total b.priority a.priority

theorem insertD_perm (x : FrontierItem) :
    ∀ l : List FrontierItem, (insertD x l).Perm (x :: l) := by
  intro l
  induction l with
  | nil => exact List.Perm.refl _
  | cons y ys ih =>
    simp only [insertD]
    split
    · exact (ih.cons y).trans (List.Perm.swap x y ys)
    · exact List.Perm.refl _

theorem insertD_of_gt (x : FrontierItem) (l : List FrontierItem)
    (h : ∀ b ∈ l, b.priority < x.priority) : insertD x l = x :: l := by
  cases l with
  | nil => rfl
  | cons y ys =>
    simp only [insertD]
    rw [if_neg (not_le.mpr (h y (List.mem_cons_self y ys)))]

theorem insertD_sorted (x : FrontierItem) (l : List FrontierItem)
    (h : l.Pairwise (fun a b => frontLE a b)) :
    (insertD x l).Pairwise (fun a b => frontLE a b) := by
  induction l with
  | nil => simp [insertD]
  | cons y ys ih =>
    rw [List.pairwise_cons] at h
    obtain ⟨hy, hys⟩ := h
    simp only [insertD]
    split
    · rename_i hxy
      rw [List.pairwise_cons]
      refine ⟨?_, ih hys⟩
      intro b hb
      rcases (insertD_perm x ys).mem_iff.mp hb with hb2
      rcases List.mem_cons.mp hb2 with hb3 | hb3
      · subst hb3
        simp only [frontLE, decide_eq_true_eq]
        exact hxy
      · exact hy b hb3
    · rename_i hxy
      rw [List.pairwise_cons]
      refine ⟨?_, List.pairwise_cons.mpr ⟨hy, hys⟩⟩
      intro b hb
      rcases List.mem_cons.mp hb with hb2 | hb2
      · subst hb2
        simp only [frontLE, decide_eq_true_eq]
        exact le_of_lt (not_le.mp hxy)
      · have h1 := hy b hb2
        simp only [frontLE, decide_eq_true_eq] at h1 ⊢
        exact le_trans h1 (le_of_lt (not_le.mp hxy))

theorem insertD_lex (x : FrontierItem) (l : List FrontierItem)
    (h : l.Pairwise frontRel) (htag : ∀ y ∈ l, y.depth < x.depth) :
    (insertD x l).Pairwise frontRel := by
  induction l with
  | nil => simp [insertD]
  | cons y ys ih =>
    rw [List.pairwise_cons] at h
    obtain ⟨hy, hys⟩ := h
    simp only [insertD]
    split
    · rename_i hxy
      rw [List.pairwise_cons]
      refine ⟨?_, ih hys (fun z hz => htag z (List.mem_cons_of_mem _ hz))⟩
      intro b hb
      rcases List.mem_cons.mp ((insertD_perm x ys).mem_iff.mp hb) with hb2 | hb2
      · subst hb2
        rcases lt_or_eq_of_le hxy with hlt | heq
        · exact Or.inl hlt
        · exact Or.inr ⟨heq.symm, htag y (List.mem_cons_self y ys)⟩
      · exact hy b hb2
    · rename_i hxy
      rw [List.pairwise_cons]
      refine ⟨?_, List.pairwise_cons.mpr ⟨hy, hys⟩⟩
      intro b hb
      rcases List.mem_cons.mp hb with hb2 | hb2
      · subst hb2
        exact Or.inl (not_le.mp hxy)
      · rcases hy b hb2 with h1 | ⟨h1, h2⟩
        · exact Or.inl (lt_trans h1 (not_le.mp hxy))
        · exact Or.inl (h1 ▸ not_le.mp hxy)

theorem push_sorted_eq_insertD (l : List FrontierItem) (x : FrontierItem)
    (h : l.Pairwise (fun a b => frontLE a b)) :
    push_frontier l x = insertD x l := by
  induction l with
  | nil =>
    simp [push_frontier, sortFrontier, insertD]
  | cons a l ih =>
    rw [List.pairwise_cons] at h
    obtain ⟨ha, hl⟩ := h
    have IH := ih hl
    obtain ⟨l₁, l₂, h₁, h₂, h₃⟩ :=
      List.mergeSort_cons frontLE_trans frontLE_total a (l ++ [x])
    have hpush : push_frontier (a :: l) x =
        (a :: (l ++ [x])).mergeSort frontLE := by
      simp [push_frontier, sortFrontier]
    have hIH2 : l₁ ++ l₂ = insertD x l := by
      rw [← h₂]
      have : (l ++ [x]).mergeSort frontLE = push_frontier l x := by
        simp [push_frontier, sortFrontier]
      rw [this, IH]
    by_cases hax : x.priority ≤ a.priority
    · have hins : ∀ b ∈ insertD x l, frontLE a b := by
        intro b hb
        rcases List.mem_cons.mp ((insertD_perm x l).mem_iff.mp hb) with hb2 | hb2
        · subst hb2
          simp only [frontLE, decide_eq_true_eq]
          exact hax
        · exact ha b hb2
      have hl1 : l₁ = [] := by
        rcases hl1c : l₁ with _ | ⟨b, l₁t⟩
        · rfl
        · exfalso
          have hbmem : b ∈ l₁ := by rw [hl1c]; exact List.mem_cons_self _ _
          have hble := h₃ b hbmem
          have hbin : b ∈ insertD x l := by
            rw [← hIH2]
            exact List.mem_append_left _ hbmem
          rw [hins b hbin] at hble
          simp at hble
      subst hl1
      simp only [List.nil_append] at h₁ hIH2
      rw [hpush, h₁, hIH2]
      simp only [insertD]
      rw [if_pos hax]
    · have hgt : a.priority < x.priority := not_le.mp hax
      have hlow : ∀ b ∈ l, b.priority < x.priority := by
        intro b hb
        have := ha b hb
        simp only [frontLE, decide_eq_true_eq] at this
        exact lt_of_le_of_lt this hgt
      have hxl : insertD x l = x :: l := insertD_of_gt x l hlow
      rw [hxl] at hIH2
      rcases hl1c : l₁ with _ | ⟨z, l₁t⟩
      · exfalso
        subst hl1c
        simp only [List.nil_append] at h₁ hIH2
        have hs := List.sorted_mergeSort frontLE_trans frontLE_total
          (a :: (l ++ [x]))
        rw [h₁, hIH2] at hs
        rw [List.pairwise_cons] at hs
        have := hs.1 x (List.mem_cons_self x l)
        simp only [frontLE, decide_eq_true_eq] at this
        exact hax this
      · subst hl1c
        have hz : z = x ∧ l₁t ++ l₂ = l := by
          rw [List.cons_append] at hIH2
          exact ⟨(List.cons.injEq _ _ _ _).mp hIH2 |>.1,
            (List.cons.injEq _ _ _ _).mp hIH2 |>.2⟩
        obtain ⟨hz1, hz2⟩ := hz
        rw [hz1] at h₁ h₃
        have hl1t : l₁t = [] := by
          rcases hl1tc : l₁t with _ | ⟨b, l₁tt⟩
          · rfl
          · exfalso
            have hbmem : b ∈ x :: l₁t := by
              rw [hl1tc]
              exact List.mem_cons_of_mem _ (List.mem_cons_self _ _)
            have hble := h₃ b hbmem
            have hbl : b ∈ l := by
              rw [← hz2, hl1tc]
              exact List.mem_append_left _ (List.mem_cons_self _ _)
            rw [ha b hbl] at hble
            simp at hble
        subst hl1t
        simp only [List.nil_append] at hz2
        subst hz2
        rw [hpush, h₁]
        simp only [insertD]
        rw [if_neg hax]
        rfl

theorem pushSeq_props :
    ∀ (items acc : List FrontierItem),
      acc.Pairwise (fun a b => frontLE a b) →
      acc.Pairwise frontRel →
      (∀ y ∈ acc, ∀ z ∈ items, y.depth < z.depth) →
      items.Pairwise (fun a b => a.depth < b.depth) →
      (items.foldl push_frontier acc).Pairwise (fun a b => frontLE a b) ∧
      (items.foldl push_frontier acc).Pairwise frontRel ∧
      (items.foldl push_frontier acc).Perm (acc ++ items) := by
  intro items
  induction items with
  | nil =>
    intro acc h1 h2 h3 h4
    exact ⟨h1, h2, by simp⟩
  | cons x items ih =>
    intro acc h1 h2 h3 h4
    rw [List.foldl_cons]
    have hpush := push_sorted_eq_insertD acc x h1
    have htagx : ∀ y ∈ acc, y.depth < x.depth :=
      fun y hy => h3 y hy x (List.mem_cons_self x items)
    have h1b : (push_frontier acc x).Pairwise (fun a b => frontLE a b) := by
      rw [hpush]
      exact insertD_sorted x acc h1
    have h2b : (push_frontier acc x).Pairwise frontRel := by
      rw [hpush]
      exact insertD_lex x acc h2 htagx
    rw [List.pairwise_cons] at h4
    obtain ⟨hx4, h4t⟩ := h4
    have h3b : ∀ y ∈ push_frontier acc x, ∀ z ∈ items, y.depth < z.depth := by
      intro y hy z hz
      have hymem : y ∈ x :: acc := by
        rw [hpush] at hy
        exact (insertD_perm x acc).mem_iff.mp hy
      rcases List.mem_cons.mp hymem with hy2 | hy2
      · subst hy2
        exact hx4 z hz
      · exact h3 y hy2 z (List.mem_cons_of_mem _ hz)
    obtain ⟨c1, c2, c3⟩ := ih (push_frontier acc x) h1b h2b h3b h4t
    refine ⟨c1, c2, ?_⟩
    have hmid : (push_frontier acc x ++ items).Perm (acc ++ x :: items) := by
      rw [hpush]
      have hstep1 : (insertD x acc ++ items).Perm ((x :: acc) ++ items) :=
        (insertD_perm x acc).append_right items
      have hstep2 : ((x :: acc) ++ items).Perm (acc ++ x :: items) := by
        rw [List.cons_append]
        exact List.perm_middle.symm
      exact hstep1.trans hstep2
    exact c3.trans hmid

theorem lex_head_max (f : FrontierItem) (t : List FrontierItem)
    (h : (f :: t).Pairwise frontRel) :
    ∀ y ∈ f :: t, y.priority ≤ f.priority ∧
      (y.priority = f.priority → f.depth ≤ y.depth) := by
  rw [List.pairwise_cons] at h
  intro y hy
  rcases List.mem_cons.mp hy with hy2 | hy2
  · subst hy2
    exact ⟨le_refl _, fun _ => le_refl _⟩
  · rcases h.1 y hy2 with h1 | ⟨h1, h2⟩
    · exact ⟨le_of_lt h1, fun he => absurd he (ne_of_lt h1)⟩
    · exact ⟨le_of_eq h1.symm, fun _ => le_of_lt h2⟩

theorem sorted_head_max (f : FrontierItem) (t : List FrontierItem)
    (h : (f :: t).Pairwise (fun a b => frontLE a b)) :
    ∀ y ∈ f :: t, y.priority ≤ f.priority := by
  rw [List.pairwise_cons] at h
  intro y hy
  rcases List.mem_cons.mp hy with hy2 | hy2
  · subst hy2
    exact le_refl _
  · have h2 := h.1 y hy2
    simp only [frontLE, decide_eq_true_eq] at h2
    exact h2

/-- C3: popping the empty frontier yields none; after any sequence of
pushes (modelled with strictly increasing insertion tags carried in the
`depth` field), pop removes and returns a maximum-priority queued element
and, among equal priorities, the earliest-pushed one (sort stability);
after `reprioritizeAll` the queue is sorted descending in the updated
priorities, so pop returns a maximum-updated-priority element. -/
theorem frontier_pop_spec :
    (pop_frontier [] = none) ∧
    (∀ items : List FrontierItem,
      items.Pairwise (fun a b => a.depth < b.depth) →
      items ≠ [] →
      ∃ fi rest, pop_frontier (pushSeq items) = some (fi, rest) ∧
        fi ∈ items ∧
        (∀ y ∈ items, y.priority ≤ fi.priority) ∧
        (∀ y ∈ items, y.priority = fi.priority → fi.depth ≤ y.depth)) ∧
    (∀ (m : StatsMap) (f : List FrontierItem),
      (reprioritizeAll m f).Pairwise (fun a b => b.priority ≤ a.priority) ∧
      (f ≠ [] →
        ∃ fi rest, pop_frontier (reprioritizeAll m f) = some (fi, rest) ∧
          fi ∈ f.map (reprioritizeOne m) ∧
          ∀ y ∈ f.map (reprioritizeOne m), y.priority ≤ fi.priority)) := by
  refine ⟨rfl, ?_, ?_⟩
  · intro items htags hne
    obtain ⟨c1, c2, c3⟩ := pushSeq_props items [] List.Pairwise.nil
      List.Pairwise.nil (by intro y hy; simp at hy) htags
    have cperm : (pushSeq items).Perm items := by
      simpa [pushSeq] using c3
    rcases hps : pushSeq items with _ | ⟨fi, rest⟩
    · exfalso
      have hlen := cperm.length_eq
      rw [hps] at hlen
      simp only [List.length_nil] at hlen
      exact hne (List.eq_nil_of_length_eq_zero hlen.symm)
    · rw [hps] at cperm
      have hlex : (fi :: rest).Pairwise frontRel := by
        rw [← hps]
        simpa [pushSeq] using c2
      refine ⟨fi, rest, rfl, ?_, ?_, ?_⟩
      · exact cperm.mem_iff.mp (List.mem_cons_self _ _)
      · intro y hy
        exact (lex_head_max fi rest hlex y (cperm.mem_iff.mpr hy)).1
      · intro y hy he
        exact (lex_head_max fi rest hlex y (cperm.mem_iff.mpr hy)).2 he
  · intro m f
    have hsorted := List.sorted_mergeSort frontLE_trans frontLE_total
      (f.map (reprioritizeOne m))
    have hsorted2 : (reprioritizeAll m f).Pairwise
        (fun a b => frontLE a b) := hsorted
    have hperm : (reprioritizeAll m f).Perm (f.map (reprioritizeOne m)) :=
      sortFrontier_perm _
    constructor
    · exact hsorted2.imp (fun h => of_decide_eq_true h)
    · intro hne
      rcases hra : reprioritizeAll m f with _ | ⟨fi, rest⟩
      · exfalso
        rw [hra] at hperm
        have hlen := hperm.length_eq
        simp only [List.length_nil, List.length_map] at hlen
        exact hne (List.eq_nil_of_length_eq_zero hlen.symm)
      · rw [hra] at hperm hsorted2
        refine ⟨fi, rest, rfl, ?_, ?_⟩
        · exact hperm.mem_iff.mp (List.mem_cons_self _ _)
        · intro y hy
          exact sorted_head_max fi rest hsorted2 y (hperm.mem_iff.mpr hy)

/-- Closed witness for `frontier_pop_spec`: pushing priorities 1 then 2
then 1 pops the unique maximum (priority 2, tag 1). -/
theorem frontier_pop_spec_witness :
    ∃ (fi : FrontierItem) (rest : List FrontierItem), pop_frontier (pushSeq
      [{ priority := 1, kind := NodeKind.identifier, value := "a",
         depth := 0, stats_key := "" },
       { priority := 2, kind := NodeKind.identifier, value := "b",
         depth := 1, stats_key := "" },
       { priority := 1, kind := NodeKind.identifier, value := "c",
         depth := 2, stats_key := "" }]) = some (fi, rest) ∧
      fi ∈ ([{ priority := 1, kind := NodeKind.identifier, value := "a",
               depth := 0, stats_key := "" },
             { priority := 2, kind := NodeKind.identifier, value := "b",
               depth := 1, stats_key := "" },
             { priority := 1, kind := NodeKind.identifier, value := "c",
               depth := 2, stats_key := "" }] : List FrontierItem) ∧
      (∀ y ∈ ([{ priority := 1, kind := NodeKind.identifier,
                 value := "a", depth := 0, stats_key := "" },
               { priority := 2, kind := NodeKind.identifier, value := "b",
                 depth := 1, stats_key := "" },
               { priority := 1, kind := NodeKind.identifier, value := "c",
                 depth := 2, stats_key := "" }] : List FrontierItem),
        y.priority ≤ fi.priority) ∧
      (∀ y ∈ ([{ priority := 1, kind := NodeKind.identifier,
                 value := "a", depth := 0, stats_key := "" },
               { priority := 2, kind := NodeKind.identifier, value := "b",
                 depth := 1, stats_key := "" },
               { priority := 1, kind := NodeKind.identifier, value := "c",
                 depth := 2, stats_key := "" }] : List FrontierItem),
        y.priority = fi.priority → fi.depth ≤ y.depth) :=
  frontier_pop_spec.2.1
    [{ priority := 1, kind := NodeKind.identifier, value := "a",
       depth := 0, stats_key := "" },
     { priority := 2, kind := NodeKind.identifier, value := "b",
       depth := 1, stats_key := "" },
     { priority := 1, kind := NodeKind.identifier, value := "c",
       depth := 2, stats_key := "" }]
    (by decide) (by simp)

end IsoSpider
